import Mathlib

/-!
Verification of `ifcbbox.py` (repository LearnIFC).

The Python source computes, for an IFC element assembly, the minimum-volume
axis-aligned bounding box over candidate reference frames.  This file gives a
shallow embedding of the four functions of the source —
`createTransformationMat`, `initBBox`, `fitBBox`, `findAssemblyBBox` — and
proves or refutes the frozen claims about them.

Modelling conventions:
* Python floats become exact rationals `ℚ`; the IEEE infinities used by
  `initBBox` are modelled by the three-constructor type `XQ`
  (`negInf`, `fin q`, `posInf`).  The arithmetic on `XQ` (`XQ.sub`, `XQ.mul`,
  `XQ.blt`) follows the IEEE rules on every combination the program can reach;
  the NaN-producing combinations (for example `posInf - posInf`, `0 * posInf`)
  are unreachable in the program because vertex coordinates are finite, and
  are given arbitrary values.
* `ifcopenshell` entity access is modelled by plain records (`Placement`,
  `IfcPart`, `Assembly`): a placement record carries the `is_entity()` flag and
  the `is_a()` type name the source inspects, its `Location[0]`, `Axis[0]` and
  `RefDirection[0]` triples; a part carries its id, printed name, placement
  and optional face geometry (the attribute chain
  `Representation.Representations[0].Items[0].Outer[0]` either fails with
  `AttributeError`, modelled by `none`, or yields a list of faces, each a
  vertex loop `face.Bounds[0].Bound[0]` of coordinate triples).
* Raising `ValueError` / `numpy.linalg.LinAlgError` is modelled by
  `Except PyError`.  `numpy.linalg.inv` applied to an exactly singular matrix
  raises; on an invertible matrix it returns the inverse, modelled by the
  adjugate formula `minv`.
* The mutating `fitBBox` returns its updated argument and is embedded as a
  pure function; `verbose` printing is I/O only and is not modelled.
-/

/-- Extended rationals: the value space of box coordinates.  `fin q` is a
finite float, `negInf`/`posInf` are the IEEE infinities produced by
`float("inf")` / `float("-inf")` in `initBBox`. -/
inductive XQ where
  | negInf : XQ
  | fin : ℚ → XQ
  | posInf : XQ
deriving DecidableEq

namespace XQ

/-- Python `min` on floats (no NaN among the reachable inputs). -/
def min : XQ → XQ → XQ
  | negInf, _ => negInf
  | _, negInf => negInf
  | posInf, b => b
  | a, posInf => a
  | fin a, fin b => fin (Min.min a b)

/-- Python `max` on floats (no NaN among the reachable inputs). -/
def max : XQ → XQ → XQ
  | posInf, _ => posInf
  | _, posInf => posInf
  | negInf, b => b
  | a, negInf => a
  | fin a, fin b => fin (Max.max a b)

/-- IEEE subtraction on the combinations the program reaches:
`fin - fin` and `(-inf) - (+inf) = -inf` (the empty box's extent).
The same-signed infinite differences are IEEE NaN and unreachable;
they are mapped to the infinity of the left argument. -/
def sub : XQ → XQ → XQ
  | fin a, fin b => fin (a - b)
  | negInf, _ => negInf
  | posInf, _ => posInf
  | fin _, negInf => posInf
  | fin _, posInf => negInf

/-- IEEE multiplication on the combinations the program reaches:
`fin * fin` and products of infinities (sign rule).  `0 * inf` is IEEE NaN
and unreachable; the `if` branches give it the sign-rule value for a
positive finite factor. -/
def mul : XQ → XQ → XQ
  | fin a, fin b => fin (a * b)
  | posInf, posInf => posInf
  | posInf, negInf => negInf
  | negInf, posInf => negInf
  | negInf, negInf => posInf
  | posInf, fin b => if b < 0 then negInf else posInf
  | negInf, fin b => if b < 0 then posInf else negInf
  | fin a, posInf => if a < 0 then negInf else posInf
  | fin a, negInf => if a < 0 then posInf else negInf

/-- Python strict `<` on floats. -/
def blt : XQ → XQ → Bool
  | _, negInf => false
  | negInf, _ => true
  | posInf, _ => false
  | fin _, posInf => true
  | fin a, fin b => decide (a < b)

/-- Python `<=` on floats. -/
def ble : XQ → XQ → Bool
  | negInf, _ => true
  | _, posInf => true
  | posInf, _ => false
  | fin _, negInf => false
  | fin a, fin b => decide (a ≤ b)

/-- Finiteness test (not in the source; used to state invariants). -/
def isFin : XQ → Bool
  | fin _ => true
  | _ => false

end XQ

/-- A 3D coordinate triple, as `point.Coordinates` of an IfcCartesianPoint
or a direction's ratios. -/
structure Vec3 where
  x : ℚ
  y : ℚ
  z : ℚ
deriving DecidableEq

/-- A triple of extended rationals: one row of the 2×3 bbox array, or the
`dim` vector `bbox[1] - bbox[0]`. -/
structure XVec3 where
  x : XQ
  y : XQ
  z : XQ
deriving DecidableEq

/-- The 2×3 numpy array holding the bounding box: `lo` is row 0
(`[min X, min Y, min Z]`), `hi` is row 1 (`[max X, max Y, max Z]`). -/
structure BBox where
  lo : XVec3
  hi : XVec3
deriving DecidableEq

/-- Source `initBBox` (ifcbbox.py lines 40–50): the ±infinity identity box. -/
def initBBox : BBox :=
  ⟨⟨XQ.posInf, XQ.posInf, XQ.posInf⟩, ⟨XQ.negInf, XQ.negInf, XQ.negInf⟩⟩

/-- Source `fitBBox` (ifcbbox.py lines 53–70).  The source mutates the six
cells of `bbox` with `min`/`max` against `point[0..2]` and returns it; the
embedding returns the updated value.  (In `findAssemblyBBox` the point passed
is a homogeneous 4-vector; only indices 0–2 are read, so the embedding takes
the first three components.) -/
def fitBBox (bbox : BBox) (point : Vec3) : BBox :=
  ⟨⟨XQ.min bbox.lo.x (.fin point.x), XQ.min bbox.lo.y (.fin point.y),
    XQ.min bbox.lo.z (.fin point.z)⟩,
   ⟨XQ.max bbox.hi.x (.fin point.x), XQ.max bbox.hi.y (.fin point.y),
    XQ.max bbox.hi.z (.fin point.z)⟩⟩

/-- Folding a list of points into a box, the order the nested loops of
`findAssemblyBBox` produce. -/
def fitList (bbox : BBox) (points : List Vec3) : BBox :=
  points.foldl fitBBox bbox

/-- Modelled from the spec: the merge step of §4.2/§5, "merge = componentwise
min of mins, componentwise max of maxes".  (No merge function exists in the
source; claims C7 compares the fold against this spec-worded merge.) -/
def mergeBBox (a b : BBox) : BBox :=
  ⟨⟨XQ.min a.lo.x b.lo.x, XQ.min a.lo.y b.lo.y, XQ.min a.lo.z b.lo.z⟩,
   ⟨XQ.max a.hi.x b.hi.x, XQ.max a.hi.y b.hi.y, XQ.max a.hi.z b.hi.z⟩⟩

/-- Membership of a finite point in a box (componentwise `lo ≤ p ≤ hi`);
used to state the containment claims. -/
def containsPt (b : BBox) (p : Vec3) : Prop :=
  XQ.ble b.lo.x (.fin p.x) = true ∧ XQ.ble (.fin p.x) b.hi.x = true ∧
  XQ.ble b.lo.y (.fin p.y) = true ∧ XQ.ble (.fin p.y) b.hi.y = true ∧
  XQ.ble b.lo.z (.fin p.z) = true ∧ XQ.ble (.fin p.z) b.hi.z = true

instance (b : BBox) (p : Vec3) : Decidable (containsPt b p) := by
  unfold containsPt; infer_instance

/-! ## Transform builder (`createTransformationMat`, ifcbbox.py lines 6–37) -/

/-- 4×4 rational matrices, the value space of `numpy` transformation
matrices in the source. -/
abbrev Mat4 := Matrix (Fin 4) (Fin 4) ℚ

/-- `numpy.cross` on 3-vectors (line 24 of the source). -/
def cross (a b : Vec3) : Vec3 :=
  ⟨a.y * b.z - a.z * b.y, a.z * b.x - a.x * b.z, a.x * b.y - a.y * b.x⟩

/-- A `ValueError` / `LinAlgError` payload: the source raises
`ValueError({'msg': ..., 'id': ...})`. -/
structure PyError where
  msg : String
  id : ℕ
deriving DecidableEq

/-- The relative-placement record the source reads: the `is_entity()` flag
and `is_a()` type name checked on lines 17–18, then `Location[0]`,
`Axis[0]`, `RefDirection[0]` (lines 21–23). -/
structure Placement where
  id : ℕ
  isEntity : Bool
  entityType : String
  location : Vec3
  axis : Vec3
  refDirection : Vec3
deriving DecidableEq

/-- Lines 27–28: `np.identity(4)` with column 3 rows 0–2 set to the
relative location. -/
def translateMat (loc : Vec3) : Mat4 :=
  !![1, 0, 0, loc.x;
     0, 1, 0, loc.y;
     0, 0, 1, loc.z;
     0, 0, 0, 1]

/-- Lines 31–32: `np.identity(4)` with the upper-left 3×3 block set to
`np.array([relXAx, relYAx, relZAx]).T`, i.e. columns X, Y, Z in order. -/
def rotateMat (xAx yAx zAx : Vec3) : Mat4 :=
  !![xAx.x, yAx.x, zAx.x, 0;
     xAx.y, yAx.y, zAx.y, 0;
     xAx.z, yAx.z, zAx.z, 0;
     0, 0, 0, 1]

/-- Lines 20–37 after validation: `relYAx = np.cross(relZAx, relXAx)` and
`transformMat = translateMat @ rotateMat`. -/
def transformMat (p : Placement) : Mat4 :=
  translateMat p.location *
    rotateMat p.refDirection (cross p.axis p.refDirection) p.axis

/-- Source `createTransformationMat` (lines 6–37): validation then the
matrix build. -/
def createTransformationMat (p : Placement) : Except PyError Mat4 :=
  if p.isEntity = false then .error ⟨"is not an entity", p.id⟩
  else if p.entityType ≠ "IfcAxis2Placement3D" then
    .error ⟨"is not IfcAxis2Placement3D", p.id⟩
  else .ok (transformMat p)

/-- `numpy.linalg.inv` on an invertible matrix: the adjugate formula.
(The source only ever applies it at line 130; the exactly-singular case
raises and is modelled at the call site.) -/
def minv (A : Mat4) : Mat4 := A.det⁻¹ • A.adjugate

/-- Application of a transform to a point lifted to homogeneous form
(lines 141–144): `transformMat @ np.array(point + (1,))`, keeping the three
coordinates `fitBBox` reads. -/
def applyT (T : Mat4) (p : Vec3) : Vec3 :=
  ⟨(T.mulVec ![p.x, p.y, p.z, 1]) 0,
   (T.mulVec ![p.x, p.y, p.z, 1]) 1,
   (T.mulVec ![p.x, p.y, p.z, 1]) 2⟩

/-- The upper-left 3×3 rotation block of a 4×4 transform. -/
def rotBlock (M : Mat4) : Matrix (Fin 3) (Fin 3) ℚ :=
  Matrix.of fun i j => M i.castSucc j.castSucc

/-- Dot product of columns `i` and `j` of a 3×3 block; used to state
orthonormality. -/
def colDot (R : Matrix (Fin 3) (Fin 3) ℚ) (i j : Fin 3) : ℚ :=
  R 0 i * R 0 j + R 1 i * R 1 j + R 2 i * R 2 j

/-! ## Reference search (`findAssemblyBBox`, ifcbbox.py lines 73–163) -/

/-- A face is the vertex loop `face.Bounds[0].Bound[0]`, a list of
coordinate triples (line 135). -/
abbrev Face := List Vec3

/-- A part of the assembly.  `geometry` models the attribute chain
`part.Representation.Representations[0].Items[0].Outer[0]` of line 123:
`none` when the chain raises `AttributeError` (the part is skipped),
`some faces` otherwise.  `name` is `refPart.to_string()`. -/
structure IfcPart where
  id : ℕ
  name : String
  placement : Placement
  geometry : Option (List Face)
deriving DecidableEq

/-- The assembly entity: `is_entity()` flag, `is_a()` type name, and the
member parts `IsDecomposedBy[0].RelatedObjects` (line 98). -/
structure Assembly where
  id : ℕ
  isEntity : Bool
  entityType : String
  parts : List IfcPart
deriving DecidableEq

/-- The result dictionary of `findAssemblyBBox` (lines 101–107):
`None` entries are `none`, the initial `Vol` is `float("inf")`. -/
structure AsmResult where
  refObjName : Option String
  refObjId : Option ℕ
  bbox : Option BBox
  dim : Option XVec3
  vol : XQ
deriving DecidableEq

/-- Lines 133–147 for one face: fit every (transformed, homogeneous-dropped)
vertex of the loop into the box. -/
def fitFace (T : Mat4) (b : BBox) (face : Face) : BBox :=
  face.foldl (fun acc pt => fitBBox acc (applyT T pt)) b

/-- Lines 133–147 for all faces of one part. -/
def fitFaces (T : Mat4) (b : BBox) (faces : List Face) : BBox :=
  faces.foldl (fitFace T) b

/-- The inner loop of `findAssemblyBBox` (lines 120–147): for each part,
skip when the geometry chain fails, otherwise build its transform
(propagating `ValueError`), invert the reference transform (an exactly
singular matrix makes `np.linalg.inv` raise `LinAlgError`) and fit every
vertex through `inv(refT) @ partT`. -/
def innerPass (refT : Mat4) : List IfcPart → BBox → Except PyError BBox
  | [], b => .ok b
  | part :: rest, b =>
    match part.geometry with
    | none => innerPass refT rest b
    | some faces =>
      match createTransformationMat part.placement with
      | .error e => .error e
      | .ok pT =>
        if refT.det = 0 then .error ⟨"Singular matrix", 0⟩
        else innerPass refT rest (fitFaces (minv refT * pT) b faces)

/-- `bbox[1] - bbox[0]` (line 150). -/
def boxDim (b : BBox) : XVec3 :=
  ⟨XQ.sub b.hi.x b.lo.x, XQ.sub b.hi.y b.lo.y, XQ.sub b.hi.z b.lo.z⟩

/-- `dim[0] * dim[1] * dim[2]` (line 151). -/
def boxVol (d : XVec3) : XQ := XQ.mul (XQ.mul d.x d.y) d.z

/-- The outer loop of `findAssemblyBBox` (lines 110–160): for each
candidate reference part, build its transform, run the inner loop over the
whole part list, and keep the result when its volume is strictly smaller
than the best seen (`if vol < res['Vol']`, line 152). -/
def outerPass (parts : List IfcPart) : List IfcPart → AsmResult → Except PyError AsmResult
  | [], res => .ok res
  | refPart :: rest, res =>
    match createTransformationMat refPart.placement with
    | .error e => .error e
    | .ok refT =>
      match innerPass refT parts initBBox with
      | .error e => .error e
      | .ok bbox =>
        let dim := boxDim bbox
        let vol := boxVol dim
        outerPass parts rest
          (if XQ.blt vol res.vol then
            ⟨some refPart.name, some refPart.id, some bbox, some dim, vol⟩
          else res)

/-- Source `findAssemblyBBox` (lines 73–163): validation of the assembly
entity (lines 93–94), then the candidate search starting from the all-`None`
result with `Vol = inf`. -/
def findAssemblyBBox (asm : Assembly) : Except PyError AsmResult :=
  if asm.isEntity = false then .error ⟨"is not an entity", asm.id⟩
  else if asm.entityType ≠ "IfcElementAssembly" then
    .error ⟨"is not an element assembly", asm.id⟩
  else outerPass asm.parts asm.parts ⟨none, none, none, none, XQ.posInf⟩

/-- The exception-free value of the inner loop: the box a candidate with
reference transform `refT` accumulates over `parts` (equal to `innerPass`
whenever no part raises; proved below). -/
def pureInner (refT : Mat4) (ps : List IfcPart) (b : BBox) : BBox :=
  ps.foldl (fun acc part =>
    match part.geometry with
    | none => acc
    | some faces => fitFaces (minv refT * transformMat part.placement) acc faces) b

/-- The box candidate `r` accumulates over the whole part list. -/
def candBBox (parts : List IfcPart) (r : IfcPart) : BBox :=
  pureInner (transformMat r.placement) parts initBBox

/-- The volume candidate `r` scores. -/
def candVol (parts : List IfcPart) (r : IfcPart) : XQ :=
  boxVol (boxDim (candBBox parts r))

/-- The result record candidate `r` would store (lines 154–160). -/
def candResult (parts : List IfcPart) (r : IfcPart) : AsmResult :=
  ⟨some r.name, some r.id, some (candBBox parts r),
   some (boxDim (candBBox parts r)), candVol parts r⟩

/-- The exception-free value of the outer loop (line 149–160 selection). -/
def selAll (parts : List IfcPart) (cs : List IfcPart) (res : AsmResult) : AsmResult :=
  cs.foldl (fun acc r =>
    if XQ.blt (candVol parts r) acc.vol then candResult parts r else acc) res

/-! ## Concrete inputs used by witnesses and counterexamples -/

/-- The identity placement: origin at zero, Z axis `(0,0,1)`,
X reference direction `(1,0,0)`. -/
def trivPlacement : Placement :=
  ⟨0, true, "IfcAxis2Placement3D", ⟨0, 0, 0⟩, ⟨0, 0, 1⟩, ⟨1, 0, 0⟩⟩

/-- A degenerate placement: the axis and the reference direction are the
same vector, so their cross product is zero. -/
def degPlacement : Placement :=
  ⟨7, true, "IfcAxis2Placement3D", ⟨0, 0, 0⟩, ⟨1, 0, 0⟩, ⟨1, 0, 0⟩⟩

/-- A valid (non-zero, non-parallel axes) placement whose reference
direction has length 2. -/
def stretchPlacement : Placement :=
  ⟨8, true, "IfcAxis2Placement3D", ⟨0, 0, 0⟩, ⟨0, 0, 1⟩, ⟨2, 0, 0⟩⟩

/-- Geometry of a unit cube given by the two extreme vertices (enough to
exercise the box accumulator). -/
def cubeFaces : List Face := [[⟨0, 0, 0⟩, ⟨1, 1, 1⟩]]

/-- A part with no retrievable geometry. -/
def bareIfcPart : IfcPart := ⟨1, "P1", trivPlacement, none⟩

/-- An assembly whose only part has no geometry (every candidate's box stays
at the infinities). -/
def noGeomAsm : Assembly := ⟨100, true, "IfcElementAssembly", [bareIfcPart]⟩

/-- Three identical cube parts with identity placements: every candidate
scores the same volume 1. -/
def cubeIfcPart1 : IfcPart := ⟨1, "P1", trivPlacement, some cubeFaces⟩

def cubeIfcPart2 : IfcPart := ⟨2, "P2", trivPlacement, some cubeFaces⟩

def cubeIfcPart3 : IfcPart := ⟨3, "P3", trivPlacement, some cubeFaces⟩

/-- The three-way-tie assembly for the tie-break claim. -/
def tieAsm : Assembly :=
  ⟨200, true, "IfcElementAssembly", [cubeIfcPart1, cubeIfcPart2, cubeIfcPart3]⟩

/-- A two-part assembly in which only the first part (the candidate) has
geometry. -/
def singleGeomParts : List IfcPart := [cubeIfcPart1, bareIfcPart]

/-- A placement that passes the validation of `createTransformationMat`
(lines 17–18 of the source). -/
def AcceptedPlacement (pl : Placement) : Prop :=
  pl.isEntity = true ∧ pl.entityType = "IfcAxis2Placement3D"

/-- All six cells of the box are finite. -/
def allFinBox (b : BBox) : Prop :=
  b.lo.x.isFin = true ∧ b.lo.y.isFin = true ∧ b.lo.z.isFin = true ∧
  b.hi.x.isFin = true ∧ b.hi.y.isFin = true ∧ b.hi.z.isFin = true

/-- The boxes reachable by the program: still the identity box, or entirely
finite (every `fitBBox` call updates all six cells at once). -/
def BoxInv (b : BBox) : Prop := b = initBBox ∨ allFinBox b

/-- A direction column lifted to homogeneous form (fourth entry 0). -/
def colVec (v : Vec3) : Fin 4 → ℚ := ![v.x, v.y, v.z, 0]

/-- Modelled from the spec: "translation(origin)" — the identity with the
origin placed in the fourth column.  (Spec-side definition for the
refinement claim C2; the source-side build is `translateMat`.) -/
def specTranslation (origin : Vec3) : Mat4 :=
  1 + Matrix.of fun i j => if j = 3 then colVec origin i else 0

/-- Modelled from the spec: "the rotation whose columns, in order, are
X, Y, Z" (fourth column `(0,0,0,1)`).  (Spec-side definition for the
refinement claim C2; the source-side build is `rotateMat`.) -/
def specRotation (cX cY cZ : Vec3) : Mat4 :=
  Matrix.of fun i j => ![colVec cX, colVec cY, colVec cZ, ![0, 0, 0, 1]] j i

/-! ## Order and lattice facts about `XQ` -/

theorem XQ.ble_refl (a : XQ) : XQ.ble a a = true := by
  cases a <;> simp [XQ.ble]

theorem XQ.ble_trans {a b c : XQ} (h₁ : XQ.ble a b = true)
    (h₂ : XQ.ble b c = true) : XQ.ble a c = true := by
  cases a <;> cases b <;> cases c <;> simp_all [XQ.ble] <;> exact le_trans h₁ h₂

theorem XQ.min_ble_left (a b : XQ) : XQ.ble (XQ.min a b) a = true := by
  cases a <;> cases b <;> simp [XQ.min, XQ.ble, XQ.ble_refl]

theorem XQ.ble_max_left (a b : XQ) : XQ.ble a (XQ.max a b) = true := by
  cases a <;> cases b <;> simp [XQ.max, XQ.ble, XQ.ble_refl]

theorem XQ.min_comm (a b : XQ) : XQ.min a b = XQ.min b a := by
  cases a <;> cases b <;> simp [XQ.min, min_comm, inf_comm]

theorem XQ.max_comm (a b : XQ) : XQ.max a b = XQ.max b a := by
  cases a <;> cases b <;> simp [XQ.max, max_comm, sup_comm]

theorem XQ.min_assoc (a b c : XQ) :
    XQ.min (XQ.min a b) c = XQ.min a (XQ.min b c) := by
  cases a <;> cases b <;> cases c <;> simp [XQ.min, min_assoc, inf_assoc]

theorem XQ.max_assoc (a b c : XQ) :
    XQ.max (XQ.max a b) c = XQ.max a (XQ.max b c) := by
  cases a <;> cases b <;> cases c <;> simp [XQ.max, max_assoc, sup_assoc]

theorem XQ.min_right_comm (a b c : XQ) :
    XQ.min (XQ.min a b) c = XQ.min (XQ.min a c) b := by
  rw [XQ.min_assoc, XQ.min_assoc, XQ.min_comm b c]

theorem XQ.max_right_comm (a b c : XQ) :
    XQ.max (XQ.max a b) c = XQ.max (XQ.max a c) b := by
  rw [XQ.max_assoc, XQ.max_assoc, XQ.max_comm b c]

theorem XQ.min_posInf (a : XQ) : XQ.min a XQ.posInf = a := by
  cases a <;> simp [XQ.min]

theorem XQ.max_negInf (a : XQ) : XQ.max a XQ.negInf = a := by
  cases a <;> simp [XQ.max]

/-! ## Facts about the box accumulator -/

/-- Two consecutive fits commute (the six cells are independent
min/max updates). -/
theorem fitBBox_right_comm (b : BBox) (p q : Vec3) :
    fitBBox (fitBBox b p) q = fitBBox (fitBBox b q) p := by
  simp [fitBBox, XQ.min_right_comm, XQ.max_right_comm]

theorem fitList_cons (b : BBox) (p : Vec3) (l : List Vec3) :
    fitList b (p :: l) = fitList (fitBBox b p) l := rfl

theorem fitList_append (b : BBox) (l₁ l₂ : List Vec3) :
    fitList b (l₁ ++ l₂) = fitList (fitList b l₁) l₂ := by
  simp [fitList, List.foldl_append]

/-- Permutation invariance of the fold, by induction on the permutation. -/
theorem fitList_perm {l₁ l₂ : List Vec3} (h : l₁.Perm l₂) :
    ∀ b : BBox, fitList b l₁ = fitList b l₂ := by
  induction h with
  | nil => intro b; rfl
  | cons x _ ih => intro b; rw [fitList_cons, fitList_cons, ih]
  | swap x y l =>
    intro b
    rw [fitList_cons, fitList_cons, fitList_cons, fitList_cons,
      fitBBox_right_comm]
  | trans _ _ ih₁ ih₂ => intro b; rw [ih₁, ih₂]

/-- Merging with the identity box changes nothing. -/
theorem mergeBBox_initBBox (b : BBox) : mergeBBox b initBBox = b := by
  simp [mergeBBox, initBBox, XQ.min_posInf, XQ.max_negInf]

/-- Merging commutes with a fit on the right component. -/
theorem mergeBBox_fitBBox (a c : BBox) (p : Vec3) :
    mergeBBox a (fitBBox c p) = fitBBox (mergeBBox a c) p := by
  simp [mergeBBox, fitBBox, XQ.min_assoc, XQ.max_assoc]

/-- Merging commutes with a whole fold on the right component. -/
theorem mergeBBox_fitList (a c : BBox) (l : List Vec3) :
    mergeBBox a (fitList c l) = fitList (mergeBBox a c) l := by
  induction l generalizing c with
  | nil => rfl
  | cons p l ih => rw [fitList_cons, fitList_cons, ih, mergeBBox_fitBBox]

/-! ## Claims C3, C7, C9 -/

/-- **C3**: `initBBox` returns the box with min `(+∞,+∞,+∞)` and max
`(−∞,−∞,−∞)`, and `fitBBox b p` has min = componentwise min of `b`'s min
row and `p`, max = componentwise max of `b`'s max row and `p`, on each of
the three axes. -/
theorem c3_initBBox_identity_fitBBox_componentwise :
    (initBBox = ⟨⟨XQ.posInf, XQ.posInf, XQ.posInf⟩,
                 ⟨XQ.negInf, XQ.negInf, XQ.negInf⟩⟩) ∧
    ∀ (b : BBox) (p : Vec3),
      (fitBBox b p).lo.x = XQ.min b.lo.x (.fin p.x) ∧
      (fitBBox b p).lo.y = XQ.min b.lo.y (.fin p.y) ∧
      (fitBBox b p).lo.z = XQ.min b.lo.z (.fin p.z) ∧
      (fitBBox b p).hi.x = XQ.max b.hi.x (.fin p.x) ∧
      (fitBBox b p).hi.y = XQ.max b.hi.y (.fin p.y) ∧
      (fitBBox b p).hi.z = XQ.max b.hi.z (.fin p.z) :=
  ⟨rfl, fun _ _ => ⟨rfl, rfl, rfl, rfl, rfl, rfl⟩⟩

/-- **C7**: folding points through `fitBBox` is order-independent — a
permutation of the point sequence gives the same final box — and splitting
a sequence and merging the partial boxes (componentwise min of mins, max of
maxes) gives the same box as the single fold. -/
theorem c7_fitList_perm_invariant_and_merge (b : BBox) (l₁ l₂ : List Vec3)
    (h : l₁.Perm l₂) :
    fitList b l₁ = fitList b l₂ ∧
    ∀ m₁ m₂ : List Vec3,
      fitList b (m₁ ++ m₂) = mergeBBox (fitList b m₁) (fitList initBBox m₂) := by
  refine ⟨fitList_perm h b, fun m₁ m₂ => ?_⟩
  rw [fitList_append, mergeBBox_fitList, mergeBBox_initBBox]

/-- Witness for C7 at a concrete permutation. -/
theorem c7_witness :
    fitList initBBox [⟨1, 2, 3⟩, ⟨4, 0, 2⟩] = fitList initBBox [⟨4, 0, 2⟩, ⟨1, 2, 3⟩] ∧
    fitList initBBox ([⟨1, 2, 3⟩] ++ [⟨4, 0, 2⟩]) =
      mergeBBox (fitList initBBox [⟨1, 2, 3⟩]) (fitList initBBox [⟨4, 0, 2⟩]) := by
  have h := c7_fitList_perm_invariant_and_merge initBBox
    [⟨1, 2, 3⟩, ⟨4, 0, 2⟩] [⟨4, 0, 2⟩, ⟨1, 2, 3⟩] (List.Perm.swap _ _ _)
  exact ⟨h.1, h.2 [⟨1, 2, 3⟩] [⟨4, 0, 2⟩]⟩

/-- **C9**: a fit never shrinks the box — on every axis the new min is
`≤` the old min and the new max is `≥` the old max — so any point contained
in the box stays contained after the fit. -/
theorem c9_fitBBox_never_shrinks (b : BBox) (p : Vec3) :
    (XQ.ble (fitBBox b p).lo.x b.lo.x = true ∧
     XQ.ble (fitBBox b p).lo.y b.lo.y = true ∧
     XQ.ble (fitBBox b p).lo.z b.lo.z = true) ∧
    (XQ.ble b.hi.x (fitBBox b p).hi.x = true ∧
     XQ.ble b.hi.y (fitBBox b p).hi.y = true ∧
     XQ.ble b.hi.z (fitBBox b p).hi.z = true) ∧
    ∀ q : Vec3, containsPt b q → containsPt (fitBBox b p) q := by
  refine ⟨⟨XQ.min_ble_left _ _, XQ.min_ble_left _ _, XQ.min_ble_left _ _⟩,
    ⟨XQ.ble_max_left _ _, XQ.ble_max_left _ _, XQ.ble_max_left _ _⟩, ?_⟩
  rintro q ⟨h₁, h₂, h₃, h₄, h₅, h₆⟩
  exact ⟨XQ.ble_trans (XQ.min_ble_left _ _) h₁, XQ.ble_trans h₂ (XQ.ble_max_left _ _),
    XQ.ble_trans (XQ.min_ble_left _ _) h₃, XQ.ble_trans h₄ (XQ.ble_max_left _ _),
    XQ.ble_trans (XQ.min_ble_left _ _) h₅, XQ.ble_trans h₆ (XQ.ble_max_left _ _)⟩

/-- Witness for C9: the containment implication at a concrete box, fitted
point and contained point. -/
theorem c9_witness :
    containsPt ⟨⟨.fin 0, .fin 0, .fin 0⟩, ⟨.fin 2, .fin 2, .fin 2⟩⟩ ⟨1, 1, 1⟩ ∧
    containsPt (fitBBox ⟨⟨.fin 0, .fin 0, .fin 0⟩, ⟨.fin 2, .fin 2, .fin 2⟩⟩ ⟨3, 3, 3⟩)
      ⟨1, 1, 1⟩ :=
  ⟨by decide,
   (c9_fitBBox_never_shrinks ⟨⟨.fin 0, .fin 0, .fin 0⟩, ⟨.fin 2, .fin 2, .fin 2⟩⟩
      ⟨3, 3, 3⟩).2.2 ⟨1, 1, 1⟩ (by decide)⟩

/-! ## Facts about the transform builder -/

/-- Validation succeeds exactly on entity records of type
`IfcAxis2Placement3D` (lines 17–18). -/
theorem createTransformationMat_ok {p : Placement} (h₁ : p.isEntity = true)
    (h₂ : p.entityType = "IfcAxis2Placement3D") :
    createTransformationMat p = .ok (transformMat p) := by
  simp [createTransformationMat, h₁, h₂]

/-- The source's `np.identity`-and-assign translation build agrees with the
spec-worded "identity plus origin in the fourth column". -/
theorem translateMat_eq_specTranslation (o : Vec3) :
    translateMat o = specTranslation o := by
  ext i j
  fin_cases i <;> fin_cases j <;>
    simp [translateMat, specTranslation, colVec, Matrix.one_apply,
      Matrix.vecHead, Matrix.vecTail]

/-- The source's `np.array([X, Y, Z]).T` build agrees with the spec-worded
"matrix whose columns, in order, are X, Y, Z". -/
theorem rotateMat_eq_specRotation (cX cY cZ : Vec3) :
    rotateMat cX cY cZ = specRotation cX cY cZ := by
  ext i j
  fin_cases i <;> fin_cases j <;>
    simp [rotateMat, specRotation, colVec, Matrix.vecHead, Matrix.vecTail]

/-- The bottom row of every built transform is `(0,0,0,1)`. -/
theorem transformMat_lastRow (p : Placement) :
    transformMat p 3 = ![0, 0, 0, 1] := by
  funext j
  fin_cases j <;>
    simp [transformMat, translateMat, rotateMat, Matrix.mul_apply,
      Fin.sum_univ_four, Matrix.vecHead, Matrix.vecTail]

/-- A product of matrices with bottom row `(0,0,0,1)` keeps that row. -/
theorem mul_lastRow {A B : Mat4} (hA : A 3 = ![0, 0, 0, 1])
    (hB : B 3 = ![0, 0, 0, 1]) : (A * B) 3 = ![0, 0, 0, 1] := by
  funext j
  simp [Matrix.mul_apply, Fin.sum_univ_four, hA, hB,
    Matrix.vecHead, Matrix.vecTail]

/-- `minv` is a right inverse on matrices of non-zero determinant. -/
theorem mul_minv_cancel {A : Mat4} (h : A.det ≠ 0) : A * minv A = 1 := by
  rw [minv, Matrix.mul_smul, Matrix.mul_adjugate, smul_smul,
    inv_mul_cancel₀ h, one_smul]

/-- `minv` is a left inverse on matrices of non-zero determinant. -/
theorem minv_mul_cancel {A : Mat4} (h : A.det ≠ 0) : minv A * A = 1 := by
  rw [minv, Matrix.smul_mul, Matrix.adjugate_mul, smul_smul,
    inv_mul_cancel₀ h, one_smul]

/-- The inverse of an invertible matrix with bottom row `(0,0,0,1)` has the
same bottom row. -/
theorem minv_lastRow {A : Mat4} (h : A.det ≠ 0)
    (hA : A 3 = ![0, 0, 0, 1]) : minv A 3 = ![0, 0, 0, 1] := by
  funext j
  have h1 := congrFun (congrFun (mul_minv_cancel h) 3) j
  simp [Matrix.mul_apply, Fin.sum_univ_four, hA, Matrix.one_apply,
    Matrix.vecHead, Matrix.vecTail] at h1
  fin_cases j <;> simp_all [Matrix.vecHead, Matrix.vecTail]

/-- A matrix with bottom row `(0,0,0,1)` maps a homogeneous point to a
vector with fourth component 1. -/
theorem mulVec_lastRow {M : Mat4} (hM : M 3 = ![0, 0, 0, 1])
    (v : Fin 4 → ℚ) (hv : v 3 = 1) : M.mulVec v 3 = 1 := by
  simp [Matrix.mulVec, Matrix.dotProduct, Fin.sum_univ_four, hM,
    Matrix.vecHead, Matrix.vecTail]
  exact hv

/-- The rotation block of a built transform: columns are the reference
direction, the cross product `axis × refDirection`, and the axis. -/
theorem rotBlock_transformMat (p : Placement) :
    rotBlock (transformMat p) =
      !![p.refDirection.x, (cross p.axis p.refDirection).x, p.axis.x;
         p.refDirection.y, (cross p.axis p.refDirection).y, p.axis.y;
         p.refDirection.z, (cross p.axis p.refDirection).z, p.axis.z] := by
  ext i j
  fin_cases i <;> fin_cases j <;>
    simp [rotBlock, transformMat, translateMat, rotateMat, Matrix.mul_apply,
      Fin.sum_univ_four, Fin.castSucc, Fin.castAdd, Fin.castLE,
      Matrix.vecHead, Matrix.vecTail]

/-! ## Claims C2, C5, C6, C10 -/

/-- **C2**: for every placement accepted by `createTransformationMat`, the
returned matrix equals translation(origin) multiplied on the right by the
rotation whose columns, in order, are X = the reference direction,
Y = cross(primary axis, reference direction), Z = the primary axis. -/
theorem c2_transform_is_translation_mul_rotation {p : Placement}
    (h₁ : p.isEntity = true) (h₂ : p.entityType = "IfcAxis2Placement3D") :
    createTransformationMat p =
      .ok (specTranslation p.location *
        specRotation p.refDirection (cross p.axis p.refDirection) p.axis) := by
  rw [createTransformationMat_ok h₁ h₂, transformMat,
    translateMat_eq_specTranslation, rotateMat_eq_specRotation]

/-- Witness for C2 at the identity placement. -/
theorem c2_witness :
    createTransformationMat trivPlacement =
      .ok (specTranslation trivPlacement.location *
        specRotation trivPlacement.refDirection
          (cross trivPlacement.axis trivPlacement.refDirection)
          trivPlacement.axis) :=
  c2_transform_is_translation_mul_rotation rfl rfl

/-- **C5** (code bug): on the degenerate placement whose axis and reference
direction coincide (cross product zero), `createTransformationMat` does NOT
fail: it returns a matrix whose rotation block — and whole 4×4 matrix — is
singular.  There is no `DegeneratePlacementError` in the code. -/
theorem c5_degenerate_placement_not_rejected :
    cross degPlacement.axis degPlacement.refDirection = ⟨0, 0, 0⟩ ∧
    createTransformationMat degPlacement = .ok (transformMat degPlacement) ∧
    (rotBlock (transformMat degPlacement)).det = 0 ∧
    (transformMat degPlacement).det = 0 := by
  refine ⟨by norm_num [cross, degPlacement], createTransformationMat_ok rfl rfl, ?_, ?_⟩
  · rw [rotBlock_transformMat]
    norm_num [Matrix.det_fin_three, cross, degPlacement]
  · refine Matrix.det_eq_zero_of_column_eq_zero 1 fun i => ?_
    fin_cases i <;>
      norm_num [transformMat, translateMat, rotateMat, cross, degPlacement,
        Matrix.mul_apply, Fin.sum_univ_four, Matrix.vecHead, Matrix.vecTail]

/-- **C6 counterexample**: a placement that satisfies the claim's validity
constraint (axis and reference direction non-zero and not parallel) on
which the rotation block of the returned matrix is not orthonormal: its
first column has squared length 4. -/
theorem c6_counterexample :
    stretchPlacement.axis ≠ ⟨0, 0, 0⟩ ∧
    stretchPlacement.refDirection ≠ ⟨0, 0, 0⟩ ∧
    cross stretchPlacement.axis stretchPlacement.refDirection ≠ ⟨0, 0, 0⟩ ∧
    createTransformationMat stretchPlacement = .ok (transformMat stretchPlacement) ∧
    colDot (rotBlock (transformMat stretchPlacement)) 0 0 = 4 := by
  refine ⟨by norm_num [stretchPlacement], by norm_num [stretchPlacement],
    by norm_num [cross, stretchPlacement, Vec3.mk.injEq], createTransformationMat_ok rfl rfl, ?_⟩
  rw [rotBlock_transformMat]
  norm_num [colDot, cross, stretchPlacement, Matrix.vecHead, Matrix.vecTail]

/-- **C6 amended**: when the placement's axis and reference direction are
unit-length and mutually perpendicular (the source copies them into the
matrix without normalising, so this is required of the input), the rotation
block of the returned matrix is orthonormal and has determinant +1. -/
theorem c6_orthonormal_axes_give_rigid_rotation (p : Placement)
    (h₁ : p.isEntity = true) (h₂ : p.entityType = "IfcAxis2Placement3D")
    (hX : p.refDirection.x * p.refDirection.x + p.refDirection.y * p.refDirection.y +
      p.refDirection.z * p.refDirection.z = 1)
    (hZ : p.axis.x * p.axis.x + p.axis.y * p.axis.y + p.axis.z * p.axis.z = 1)
    (hXZ : p.refDirection.x * p.axis.x + p.refDirection.y * p.axis.y +
      p.refDirection.z * p.axis.z = 0) :
    createTransformationMat p = .ok (transformMat p) ∧
    (∀ i j, colDot (rotBlock (transformMat p)) i j = if i = j then 1 else 0) ∧
    (rotBlock (transformMat p)).det = 1 := by
  refine ⟨createTransformationMat_ok h₁ h₂, ?_, ?_⟩
  · intro i j
    rw [rotBlock_transformMat]
    fin_cases i <;> fin_cases j <;> simp [colDot, cross]
    · linear_combination hX
    · linear_combination
    · linear_combination hXZ
    · linear_combination
    · linear_combination
        (p.axis.x * p.axis.x + p.axis.y * p.axis.y + p.axis.z * p.axis.z) * hX + hZ -
        (p.refDirection.x * p.axis.x + p.refDirection.y * p.axis.y +
          p.refDirection.z * p.axis.z) * hXZ
    · linear_combination
    · linear_combination hXZ
    · linear_combination
    · linear_combination hZ
  · rw [rotBlock_transformMat]
    rw [Matrix.det_fin_three]
    simp [cross]
    linear_combination
      (p.axis.x * p.axis.x + p.axis.y * p.axis.y + p.axis.z * p.axis.z) * hX + hZ -
      (p.refDirection.x * p.axis.x + p.refDirection.y * p.axis.y +
        p.refDirection.z * p.axis.z) * hXZ

/-- Witness for the amended C6 at the identity placement (orthonormal
inputs), extracting the determinant conjunct. -/
theorem c6_witness : (rotBlock (transformMat trivPlacement)).det = 1 :=
  (c6_orthonormal_axes_give_rigid_rotation trivPlacement rfl rfl
    (by norm_num [trivPlacement]) (by norm_num [trivPlacement])
    (by norm_num [trivPlacement])).2.2

/-- **C10**: every accepted placement yields a matrix with bottom row
`(0,0,0,1)`, and applying such a matrix — or the product of the inverse of
one with another — to a homogeneous point `(x,y,z,1)` yields a vector with
fourth component 1. -/
theorem c10_bottom_row_and_homogeneous (p₁ p₂ : Placement)
    (h₁ : p₁.isEntity = true) (h₂ : p₁.entityType = "IfcAxis2Placement3D")
    (h₃ : p₂.isEntity = true) (h₄ : p₂.entityType = "IfcAxis2Placement3D")
    (hdet : (transformMat p₁).det ≠ 0) :
    (createTransformationMat p₁ = .ok (transformMat p₁) ∧
     createTransformationMat p₂ = .ok (transformMat p₂) ∧
     transformMat p₁ 3 = ![0, 0, 0, 1] ∧
     transformMat p₂ 3 = ![0, 0, 0, 1]) ∧
    ∀ x y z : ℚ,
      (transformMat p₁).mulVec ![x, y, z, 1] 3 = 1 ∧
      (minv (transformMat p₁) * transformMat p₂).mulVec ![x, y, z, 1] 3 = 1 := by
  refine ⟨⟨createTransformationMat_ok h₁ h₂, createTransformationMat_ok h₃ h₄,
    transformMat_lastRow p₁, transformMat_lastRow p₂⟩, fun x y z => ?_⟩
  constructor
  · exact mulVec_lastRow (transformMat_lastRow p₁) _ rfl
  · refine mulVec_lastRow ?_ _ rfl
    exact mul_lastRow (minv_lastRow hdet (transformMat_lastRow p₁))
      (transformMat_lastRow p₂)

/-! ## Facts about the reference search -/

/-- The identity placement builds the identity transform. -/
theorem transformMat_triv : transformMat trivPlacement = 1 := by
  ext i j
  fin_cases i <;> fin_cases j <;>
    simp [transformMat, translateMat, rotateMat, cross, trivPlacement,
      Matrix.mul_apply, Fin.sum_univ_four, Matrix.one_apply,
      Matrix.vecHead, Matrix.vecTail]

/-- `minv` of the identity matrix is the identity. -/
theorem minv_one : minv (1 : Mat4) = 1 := by
  rw [minv, Matrix.det_one, Matrix.adjugate_one]
  simp

/-- The identity transform moves no point. -/
theorem applyT_one (p : Vec3) : applyT 1 p = p := by
  cases p
  simp [applyT, Matrix.one_mulVec]

/-- The identity transform makes `fitFace` plain point fitting. -/
theorem fitFace_one (b : BBox) (face : Face) :
    fitFace 1 b face = face.foldl fitBBox b := by
  have h : (fun acc pt => fitBBox acc (applyT 1 pt)) = fitBBox := by
    funext acc pt
    rw [applyT_one]
  rw [fitFace, h]

/-- The identity transform makes `fitFaces` plain point fitting. -/
theorem fitFaces_one (b : BBox) (faces : List Face) :
    fitFaces 1 b faces = faces.foldl (fun acc face => face.foldl fitBBox acc) b := by
  induction faces generalizing b with
  | nil => rfl
  | cons face rest ih =>
    simp only [fitFaces, List.foldl_cons] at *
    rw [show fitFace 1 b face = face.foldl fitBBox b from fitFace_one b face, ih]

/-- Parts without geometry are skipped by the inner loop. -/
theorem innerPass_skip (refT : Mat4) :
    ∀ (ps : List IfcPart) (b : BBox), (∀ p ∈ ps, p.geometry = none) →
      innerPass refT ps b = .ok b := by
  intro ps
  induction ps with
  | nil => intro b _; rfl
  | cons part rest ih =>
    intro b h
    have hp : part.geometry = none := h part (by simp)
    simp only [innerPass, hp]
    exact ih b fun p hp' => h p (by simp [hp'])

/-- Skipped prefixes drop out of the inner loop. -/
theorem innerPass_append_skip (refT : Mat4) (l₁ rest : List IfcPart)
    (h : ∀ p ∈ l₁, p.geometry = none) :
    ∀ b, innerPass refT (l₁ ++ rest) b = innerPass refT rest b := by
  induction l₁ with
  | nil => intro b; rfl
  | cons part l ih =>
    intro b
    have hp : part.geometry = none := h part (by simp)
    simp only [List.cons_append, innerPass, hp]
    exact ih (fun p hp' => h p (by simp [hp'])) b

/-- On accepted placements and an invertible reference transform, the inner
loop raises nothing and computes the pure fold `pureInner`. -/
theorem innerPass_ok (refT : Mat4) (hdet : refT.det ≠ 0) :
    ∀ (ps : List IfcPart) (b : BBox),
      (∀ p ∈ ps, AcceptedPlacement p.placement) →
      innerPass refT ps b = .ok (pureInner refT ps b) := by
  intro ps
  induction ps with
  | nil => intro b _; rfl
  | cons part rest ih =>
    intro b h
    have hp := h part (by simp)
    cases hg : part.geometry with
    | none =>
      simp only [innerPass, pureInner, List.foldl_cons, hg]
      exact ih b fun p hp' => h p (by simp [hp'])
    | some faces =>
      simp only [innerPass, pureInner, List.foldl_cons, hg,
        createTransformationMat_ok hp.1 hp.2, if_neg hdet]
      exact ih _ fun p hp' => h p (by simp [hp'])

/-- Fitting a point into a reachable box gives an entirely finite box. -/
theorem fitBBox_allFin (b : BBox) (p : Vec3) (h : BoxInv b) :
    allFinBox (fitBBox b p) := by
  rcases h with h | h
  · subst h
    exact ⟨rfl, rfl, rfl, rfl, rfl, rfl⟩
  · obtain ⟨h₁, h₂, h₃, h₄, h₅, h₆⟩ := h
    refine ⟨?_, ?_, ?_, ?_, ?_, ?_⟩ <;>
      [cases hx : b.lo.x; cases hx : b.lo.y; cases hx : b.lo.z;
       cases hx : b.hi.x; cases hx : b.hi.y; cases hx : b.hi.z] <;>
      simp_all [XQ.isFin, fitBBox, XQ.min, XQ.max]

/-- Fitting preserves reachability. -/
theorem boxInv_fitBBox (b : BBox) (p : Vec3) (h : BoxInv b) :
    BoxInv (fitBBox b p) :=
  Or.inr (fitBBox_allFin b p h)

theorem boxInv_fitFace (T : Mat4) (face : Face) :
    ∀ b, BoxInv b → BoxInv (fitFace T b face) := by
  induction face with
  | nil => intro b h; exact h
  | cons pt rest ih =>
    intro b h
    exact ih _ (boxInv_fitBBox _ _ h)

theorem boxInv_fitFaces (T : Mat4) (faces : List Face) :
    ∀ b, BoxInv b → BoxInv (fitFaces T b faces) := by
  induction faces with
  | nil => intro b h; exact h
  | cons face rest ih =>
    intro b h
    exact ih _ (boxInv_fitFace T face b h)

theorem boxInv_pureInner (refT : Mat4) (ps : List IfcPart) :
    ∀ b, BoxInv b → BoxInv (pureInner refT ps b) := by
  induction ps with
  | nil => intro b h; exact h
  | cons part rest ih =>
    intro b h
    cases hg : part.geometry with
    | none => simp only [pureInner, List.foldl_cons, hg]; exact ih b h
    | some faces =>
      simp only [pureInner, List.foldl_cons, hg]
      exact ih _ (boxInv_fitFaces _ faces b h)

/-- The volume of a reachable box is `-inf` (identity box) or finite; in
either case it is strictly below the initial best `+inf`. -/
theorem boxVol_blt_posInf (b : BBox) (h : BoxInv b) :
    XQ.blt (boxVol (boxDim b)) XQ.posInf = true := by
  rcases h with h | h
  · subst h; rfl
  · obtain ⟨h₁, h₂, h₃, h₄, h₅, h₆⟩ := h
    cases hx₁ : b.lo.x <;> cases hx₂ : b.lo.y <;> cases hx₃ : b.lo.z <;>
      cases hx₄ : b.hi.x <;> cases hx₅ : b.hi.y <;> cases hx₆ : b.hi.z <;>
      simp_all [XQ.isFin, boxDim, boxVol, XQ.sub, XQ.mul, XQ.blt]

/-- Every candidate volume is strictly below `+inf`. -/
theorem candVol_blt_posInf (parts : List IfcPart) (r : IfcPart) :
    XQ.blt (candVol parts r) XQ.posInf = true :=
  boxVol_blt_posInf _ (boxInv_pureInner _ parts initBBox (Or.inl rfl))

/-- `<` on reachable volumes is irreflexive. -/
theorem XQ.blt_irrefl (a : XQ) : XQ.blt a a = false := by
  cases a <;> simp [XQ.blt]

/-- Trichotomy: two distinct values with no strict drop from left to right
have a strict drop from right to left. -/
theorem XQ.blt_of_ne_of_not_blt {a b : XQ} (hne : a ≠ b)
    (hnb : XQ.blt a b = false) : XQ.blt b a = true := by
  cases a <;> cases b <;> simp_all [XQ.blt]
  exact lt_of_le_of_ne hnb fun h => hne h.symm

theorem selAll_nil (parts : List IfcPart) (res : AsmResult) :
    selAll parts [] res = res := rfl

theorem selAll_cons (parts : List IfcPart) (r : IfcPart) (cs : List IfcPart)
    (res : AsmResult) :
    selAll parts (r :: cs) res =
      selAll parts cs
        (if XQ.blt (candVol parts r) res.vol then candResult parts r else res) := rfl

/-- When no candidate improves on the running best, the fold keeps it. -/
theorem selAll_no_improve (parts : List IfcPart) :
    ∀ (cs : List IfcPart) (res : AsmResult),
      (∀ r ∈ cs, XQ.blt (candVol parts r) res.vol = false) →
      selAll parts cs res = res := by
  intro cs
  induction cs with
  | nil => intro res _; rfl
  | cons r rest ih =>
    intro res h
    rw [selAll_cons, if_neg (by simp [h r (by simp)])]
    exact ih res fun r' hr' => h r' (by simp [hr'])

/-- The running best volume is the initial one or one of the candidates'. -/
theorem selAll_vol_mem (parts : List IfcPart) :
    ∀ (cs : List IfcPart) (res : AsmResult),
      (selAll parts cs res).vol = res.vol ∨
      ∃ r ∈ cs, (selAll parts cs res).vol = candVol parts r := by
  intro cs
  induction cs with
  | nil => intro res; exact Or.inl rfl
  | cons r rest ih =>
    intro res
    rw [selAll_cons]
    by_cases hb : XQ.blt (candVol parts r) res.vol
    · rw [if_pos hb]
      rcases ih (candResult parts r) with h | ⟨r', hr', h⟩
      · exact Or.inr ⟨r, by simp, h⟩
      · exact Or.inr ⟨r', by simp [hr'], h⟩
    · rw [if_neg hb]
      rcases ih res with h | ⟨r', hr', h⟩
      · exact Or.inl h
      · exact Or.inr ⟨r', by simp [hr'], h⟩

/-- The selection fold returns the first candidate that attains the minimal
volume: candidates before it are strictly worse, candidates after it are
never strictly better, so the record it stores survives to the end. -/
theorem selAll_first_min (parts : List IfcPart) (cs1 cs2 : List IfcPart)
    (c : IfcPart) (res : AsmResult) (hres : res.vol = XQ.posInf)
    (hmin : ∀ p ∈ cs1 ++ c :: cs2,
      XQ.blt (candVol parts p) (candVol parts c) = false)
    (hfirst : ∀ p ∈ cs1, candVol parts p ≠ candVol parts c) :
    selAll parts (cs1 ++ c :: cs2) res = candResult parts c := by
  have hfold : selAll parts (cs1 ++ c :: cs2) res =
      selAll parts (c :: cs2) (selAll parts cs1 res) := by
    simp [selAll, List.foldl_append]
  rw [hfold]
  have hlt : XQ.blt (candVol parts c) (selAll parts cs1 res).vol = true := by
    rcases selAll_vol_mem parts cs1 res with h | ⟨r, hr, h⟩
    · rw [h, hres]
      exact candVol_blt_posInf parts c
    · rw [h]
      exact XQ.blt_of_ne_of_not_blt (hfirst r hr)
        (hmin r (by simp [hr]))
  rw [selAll_cons, if_pos hlt]
  exact selAll_no_improve parts cs2 (candResult parts c)
    fun r hr => hmin r (by simp [hr])

/-- On accepted, non-degenerate placements the outer loop raises nothing
and computes the pure selection fold. -/
theorem outerPass_ok (parts : List IfcPart)
    (hAcc : ∀ p ∈ parts, AcceptedPlacement p.placement) :
    ∀ (cs : List IfcPart) (res : AsmResult),
      (∀ r ∈ cs, AcceptedPlacement r.placement ∧
        (transformMat r.placement).det ≠ 0) →
      outerPass parts cs res = .ok (selAll parts cs res) := by
  intro cs
  induction cs with
  | nil => intro res _; rfl
  | cons refPart rest ih =>
    intro res h
    have hr := h refPart (by simp)
    simp only [outerPass, createTransformationMat_ok hr.1.1 hr.1.2,
      innerPass_ok _ hr.2 parts initBBox hAcc, selAll_cons]
    exact ih _ fun r' hr' => h r' (by simp [hr'])

/-- On a valid assembly whose parts all carry accepted, non-degenerate
placements, `findAssemblyBBox` returns the pure selection fold. -/
theorem findAssemblyBBox_ok (asm : Assembly) (hE : asm.isEntity = true)
    (hT : asm.entityType = "IfcElementAssembly")
    (h : ∀ p ∈ asm.parts, AcceptedPlacement p.placement ∧
      (transformMat p.placement).det ≠ 0) :
    findAssemblyBBox asm =
      .ok (selAll asm.parts asm.parts ⟨none, none, none, none, XQ.posInf⟩) := by
  rw [findAssemblyBBox]
  simp only [hE, hT]
  norm_num
  exact outerPass_ok asm.parts (fun p hp => (h p hp).1) asm.parts _ h

/-- Parts without geometry contribute nothing to the pure inner fold. -/
theorem pureInner_skip (refT : Mat4) :
    ∀ (ps : List IfcPart) (b : BBox), (∀ p ∈ ps, p.geometry = none) →
      pureInner refT ps b = b := by
  intro ps
  induction ps with
  | nil => intro b _; rfl
  | cons part rest ih =>
    intro b h
    have hp : part.geometry = none := h part (by simp)
    simp only [pureInner, List.foldl_cons, hp]
    exact ih b fun p hp' => h p (by simp [hp'])

/-- Geometry-free prefixes drop out of the pure inner fold. -/
theorem pureInner_append_skip (refT : Mat4) (l₁ rest : List IfcPart)
    (h : ∀ p ∈ l₁, p.geometry = none) :
    ∀ b, pureInner refT (l₁ ++ rest) b = pureInner refT rest b := by
  induction l₁ with
  | nil => intro b; rfl
  | cons part l ih =>
    intro b
    have hp : part.geometry = none := h part (by simp)
    simp only [List.cons_append, pureInner, List.foldl_cons, hp]
    exact ih (fun p hp' => h p (by simp [hp'])) b

/-- Every candidate of the tie assembly (identity placements, identical
cubes) accumulates the box `[0,1]³`. -/
theorem candBBox_tie (r : IfcPart) (hr : r.placement = trivPlacement) :
    candBBox tieAsm.parts r =
      ⟨⟨.fin 0, .fin 0, .fin 0⟩, ⟨.fin 1, .fin 1, .fin 1⟩⟩ := by
  simp only [candBBox, tieAsm, pureInner, List.foldl_cons, List.foldl_nil,
    cubeIfcPart1, cubeIfcPart2, cubeIfcPart3, hr, transformMat_triv, minv_one,
    one_mul, fitFaces_one, cubeFaces]
  norm_num [fitBBox, initBBox, XQ.min, XQ.max, min_def, max_def]

/-- Every candidate of the tie assembly scores volume 1. -/
theorem candVol_tie (r : IfcPart) (hr : r.placement = trivPlacement) :
    candVol tieAsm.parts r = XQ.fin 1 := by
  rw [candVol, candBBox_tie r hr]
  norm_num [boxDim, boxVol, XQ.sub, XQ.mul]

/-! ## Claims C1, C4, C8 -/

/-- **C1** (code bug): on an assembly none of whose parts has geometry,
`findAssemblyBBox` does NOT fail: it returns a result whose box is exactly
the identity-infinities box, with extents `-inf` and volume `-inf` (because
`-inf < inf` holds, the first candidate's empty box is stored).  There is no
`NoGeometryError` in the code. -/
theorem c1_no_geometry_returns_infinite_box :
    findAssemblyBBox noGeomAsm =
      .ok ⟨some "P1", some 1, some initBBox,
        some ⟨XQ.negInf, XQ.negInf, XQ.negInf⟩, XQ.negInf⟩ := by
  simp [findAssemblyBBox, noGeomAsm, bareIfcPart, outerPass, innerPass,
    createTransformationMat, trivPlacement, boxDim, boxVol, initBBox,
    XQ.sub, XQ.mul, XQ.blt]

/-- **C4**: when exactly one part (the candidate reference itself) has
geometry, the candidate's accumulated box is the box of that part's own
vertex points, untransformed — the relative transform
`inverse(Transform(r)) * Transform(r)` acts as the identity. -/
theorem c4_single_geometry_candidate_box (l₁ l₂ : List IfcPart) (r : IfcPart)
    (faces : List Face) (hAcc : AcceptedPlacement r.placement)
    (hdet : (transformMat r.placement).det ≠ 0) (hg : r.geometry = some faces)
    (h₁ : ∀ p ∈ l₁, p.geometry = none) (h₂ : ∀ p ∈ l₂, p.geometry = none) :
    innerPass (transformMat r.placement) (l₁ ++ r :: l₂) initBBox =
      .ok (faces.foldl (fun acc face => face.foldl fitBBox acc) initBBox) ∧
    candBBox (l₁ ++ r :: l₂) r =
      faces.foldl (fun acc face => face.foldl fitBBox acc) initBBox := by
  constructor
  · rw [innerPass_append_skip _ l₁ _ h₁]
    simp only [innerPass, hg, createTransformationMat_ok hAcc.1 hAcc.2,
      if_neg hdet, minv_mul_cancel hdet]
    rw [innerPass_skip _ l₂ _ h₂, fitFaces_one]
  · rw [candBBox, pureInner_append_skip _ l₁ _ h₁]
    simp only [pureInner, List.foldl_cons, hg, minv_mul_cancel hdet]
    rw [show (List.foldl _ (fitFaces 1 initBBox faces) l₂ : BBox) =
        pureInner (transformMat r.placement) l₂ (fitFaces 1 initBBox faces) from rfl,
      pureInner_skip _ l₂ _ h₂, fitFaces_one]

/-- Witness for C4: a two-part assembly in which only the candidate has
geometry (a unit cube). -/
theorem c4_witness :
    innerPass (transformMat cubeIfcPart1.placement)
        ([] ++ cubeIfcPart1 :: [bareIfcPart]) initBBox =
      .ok (cubeFaces.foldl (fun acc face => face.foldl fitBBox acc) initBBox) ∧
    candBBox ([] ++ cubeIfcPart1 :: [bareIfcPart]) cubeIfcPart1 =
      cubeFaces.foldl (fun acc face => face.foldl fitBBox acc) initBBox :=
  c4_single_geometry_candidate_box [] [bareIfcPart] cubeIfcPart1 cubeFaces
    ⟨rfl, rfl⟩
    (by rw [show cubeIfcPart1.placement = trivPlacement from rfl,
        transformMat_triv, Matrix.det_one]; exact one_ne_zero)
    rfl (by simp) (by simp [bareIfcPart])

/-- **C8 counterexample**: in the three-way-tie assembly, candidates 2 and 3
produce exactly equal volume and no candidate produces a smaller one, yet
`findAssemblyBBox` returns candidate 1's result — not the first of the pair
(2,3) — so the claim as stated (about any two tied candidates with none
smaller) fails. -/
theorem c8_counterexample :
    candVol tieAsm.parts cubeIfcPart2 = candVol tieAsm.parts cubeIfcPart3 ∧
    (∀ p ∈ tieAsm.parts,
      XQ.blt (candVol tieAsm.parts p) (candVol tieAsm.parts cubeIfcPart2) = false) ∧
    findAssemblyBBox tieAsm = .ok (candResult tieAsm.parts cubeIfcPart1) ∧
    (candResult tieAsm.parts cubeIfcPart1).refObjId = some cubeIfcPart1.id ∧
    cubeIfcPart1.id ≠ cubeIfcPart2.id := by
  have h1 := candVol_tie cubeIfcPart1 rfl
  have h2 := candVol_tie cubeIfcPart2 rfl
  have h3 := candVol_tie cubeIfcPart3 rfl
  have hmem : ∀ p ∈ tieAsm.parts, candVol tieAsm.parts p = XQ.fin 1 := by
    intro p hp
    simp only [tieAsm, List.mem_cons, List.not_mem_nil, or_false] at hp
    rcases hp with hp | hp | hp
    · exact hp ▸ h1
    · exact hp ▸ h2
    · exact hp ▸ h3
  refine ⟨h2.trans h3.symm, ?_, ?_, rfl, by decide⟩
  · intro p hp
    rw [hmem p hp, h2]
    exact XQ.blt_irrefl _
  · have hok : ∀ p ∈ tieAsm.parts, AcceptedPlacement p.placement ∧
        (transformMat p.placement).det ≠ 0 := by
      intro p hp
      simp only [tieAsm, List.mem_cons, List.not_mem_nil, or_false] at hp
      have hdet : (transformMat trivPlacement).det ≠ 0 := by
        rw [transformMat_triv, Matrix.det_one]; exact one_ne_zero
      rcases hp with hp | hp | hp
      · exact hp ▸ ⟨⟨rfl, rfl⟩, hdet⟩
      · exact hp ▸ ⟨⟨rfl, rfl⟩, hdet⟩
      · exact hp ▸ ⟨⟨rfl, rfl⟩, hdet⟩
    rw [findAssemblyBBox_ok tieAsm rfl rfl hok]
    refine congrArg Except.ok
      (selAll_first_min tieAsm.parts [] [cubeIfcPart2, cubeIfcPart3]
        cubeIfcPart1 _ rfl ?_ (by simp))
    intro p hp
    rw [hmem p hp, h1]
    exact XQ.blt_irrefl _

/-- **C8 amended**: `findAssemblyBBox` returns the result of the first
candidate in part-list order attaining the minimal volume; in particular,
when a later candidate ties with it and no candidate anywhere is smaller,
the earlier one wins. -/
theorem c8_first_minimal_candidate_wins (asm : Assembly)
    (cs1 cs2 : List IfcPart) (c c' : IfcPart)
    (hE : asm.isEntity = true) (hT : asm.entityType = "IfcElementAssembly")
    (hps : asm.parts = cs1 ++ c :: cs2)
    (hok : ∀ p ∈ asm.parts, AcceptedPlacement p.placement ∧
      (transformMat p.placement).det ≠ 0)
    (_hc' : c' ∈ cs2) (_htie : candVol asm.parts c' = candVol asm.parts c)
    (hmin : ∀ p ∈ asm.parts,
      XQ.blt (candVol asm.parts p) (candVol asm.parts c) = false)
    (hfirst : ∀ p ∈ cs1, candVol asm.parts p ≠ candVol asm.parts c) :
    findAssemblyBBox asm = .ok (candResult asm.parts c) := by
  rw [hps] at hmin hfirst
  rw [findAssemblyBBox_ok asm hE hT hok, hps]
  exact congrArg Except.ok
    (selAll_first_min (cs1 ++ c :: cs2) cs1 cs2 c _ rfl hmin hfirst)

/-- Witness for the amended C8 on the tie assembly: candidate 1 is first,
candidate 2 ties with it, nobody is smaller, and candidate 1's result is
returned. -/
theorem c8_witness :
    findAssemblyBBox tieAsm = .ok (candResult tieAsm.parts cubeIfcPart1) := by
  have h1 := candVol_tie cubeIfcPart1 rfl
  have hmem : ∀ p ∈ tieAsm.parts, candVol tieAsm.parts p = XQ.fin 1 := by
    intro p hp
    simp only [tieAsm, List.mem_cons, List.not_mem_nil, or_false] at hp
    rcases hp with hp | hp | hp
    · exact hp ▸ candVol_tie cubeIfcPart1 rfl
    · exact hp ▸ candVol_tie cubeIfcPart2 rfl
    · exact hp ▸ candVol_tie cubeIfcPart3 rfl
  refine c8_first_minimal_candidate_wins tieAsm [] [cubeIfcPart2, cubeIfcPart3]
    cubeIfcPart1 cubeIfcPart2 rfl rfl rfl ?_ (by simp)
    ((candVol_tie cubeIfcPart2 rfl).trans h1.symm) ?_ (by simp)
  · intro p hp
    simp only [tieAsm, List.mem_cons, List.not_mem_nil, or_false] at hp
    have hdet : (transformMat trivPlacement).det ≠ 0 := by
      rw [transformMat_triv, Matrix.det_one]; exact one_ne_zero
    rcases hp with hp | hp | hp
    · exact hp ▸ ⟨⟨rfl, rfl⟩, hdet⟩
    · exact hp ▸ ⟨⟨rfl, rfl⟩, hdet⟩
    · exact hp ▸ ⟨⟨rfl, rfl⟩, hdet⟩
  · intro p hp
    rw [hmem p hp, h1]
    exact XQ.blt_irrefl _

/-- Witness for C10 at the identity placement and the homogeneous point
`(5, 6, 7, 1)`. -/
theorem c10_witness :
    (createTransformationMat trivPlacement = .ok (transformMat trivPlacement) ∧
     createTransformationMat trivPlacement = .ok (transformMat trivPlacement) ∧
     transformMat trivPlacement 3 = ![0, 0, 0, 1] ∧
     transformMat trivPlacement 3 = ![0, 0, 0, 1]) ∧
    (transformMat trivPlacement).mulVec ![5, 6, 7, 1] 3 = 1 ∧
    (minv (transformMat trivPlacement) *
      transformMat trivPlacement).mulVec ![5, 6, 7, 1] 3 = 1 := by
  have h := c10_bottom_row_and_homogeneous trivPlacement trivPlacement
    rfl rfl rfl rfl
    (by rw [transformMat_triv, Matrix.det_one]; exact one_ne_zero)
  exact ⟨h.1, h.2 5 6 7⟩
